import Mathlib

/-!
Verification of the adaptive range downloader (`main.go`) against its
natural-language specification.  The Go source is shallowly embedded:
pure computations become Lean functions, stateful methods become explicit
state-passing functions, the concurrent worker pool becomes a small-step
relation, and durations are modelled as natural numbers of nanoseconds
(Go `time.Duration` values produced by `time.Since` are non-negative).
-/

set_option maxHeartbeats 1000000

/-- Mirror of Go `ChunkInfo`: a byte range `[Start, End]` (inclusive) with its
planned sequence index. -/
structure ChunkInfo where
  Start : Nat
  End : Nat
  Index : Nat
deriving DecidableEq

/-- The fields of `AdaptiveDownloader` read and written by
`calculateOptimalConnections`: the duration history (`Stats.ChunkTimes`, in
nanoseconds) and the connection counters (Go `int`s, modelled as `Int`). -/
structure AdaptiveState where
  ChunkTimes : List Nat
  CurrentConnections : Int
  MinConnections : Int
  MaxConnections : Int
deriving DecidableEq

/-- The connection-related fields of the value built by
`NewAdaptiveDownloader`: empty history, current 4, minimum 2, maximum 16. -/
def NewAdaptiveDownloader : AdaptiveState :=
  ⟨[], 4, 2, 16⟩

/-- Embedding of `calculateOptimalConnections` (main.go).  With fewer than 3
samples it returns the state unchanged; otherwise it averages the last 3
durations with Go's truncating `time.Duration` division and adjusts
`CurrentConnections` by ±1 inside the `[Min, Max]` guards. -/
def calculateOptimalConnections (s : AdaptiveState) : AdaptiveState :=
  if s.ChunkTimes.length < 3 then s
  else
    let recent := s.ChunkTimes.drop (s.ChunkTimes.length - 3)
    let avgTime := recent.sum / recent.length
    if avgTime < 2000000000 ∧ s.CurrentConnections < s.MaxConnections then
      ⟨s.ChunkTimes, s.CurrentConnections + 1, s.MinConnections, s.MaxConnections⟩
    else if 5000000000 < avgTime ∧ s.MinConnections < s.CurrentConnections then
      ⟨s.ChunkTimes, s.CurrentConnections - 1, s.MinConnections, s.MaxConnections⟩
    else s

/-- One controller call as a function of the current connection count, with the
duration history at that moment supplied as an argument. -/
def connStep (mi ma : Int) (times : List Nat) (cur : Int) : Int :=
  (calculateOptimalConnections ⟨times, cur, mi, ma⟩).CurrentConnections

/-- Any finite sequence of controller calls, each seeing an arbitrary duration
history. -/
def connRun (mi ma : Int) (hs : List (List Nat)) (cur : Int) : Int :=
  hs.foldl (fun c ts => connStep mi ma ts c) cur

lemma connStep_bounds (mi ma : Int) (times : List Nat) (cur : Int)
    (h1 : mi ≤ cur) (h2 : cur ≤ ma) :
    mi ≤ connStep mi ma times cur ∧ connStep mi ma times cur ≤ ma := by
  unfold connStep calculateOptimalConnections
  dsimp only
  split
  · exact ⟨h1, h2⟩
  · split
    · rename_i hg
      dsimp only
      exact ⟨by omega, by omega⟩
    · split
      · rename_i hg
        dsimp only
        exact ⟨by omega, by omega⟩
      · exact ⟨h1, h2⟩

lemma connRun_bounds (mi ma : Int) (hs : List (List Nat)) (cur : Int)
    (h1 : mi ≤ cur) (h2 : cur ≤ ma) :
    mi ≤ connRun mi ma hs cur ∧ connRun mi ma hs cur ≤ ma := by
  induction hs generalizing cur with
  | nil => exact ⟨h1, h2⟩
  | cons ts rest ih =>
    have hb := connStep_bounds mi ma ts cur h1 h2
    exact ih (connStep mi ma ts cur) hb.1 hb.2

/-- C2: starting from the constructor's defaults (minimum 2, maximum 16,
current 4), after any sequence of `calculateOptimalConnections` calls with any
duration histories, the current worker count stays within `[2, 16]`. -/
theorem connections_bounds_invariant (hs : List (List Nat)) :
    2 ≤ connRun NewAdaptiveDownloader.MinConnections
          NewAdaptiveDownloader.MaxConnections hs
          NewAdaptiveDownloader.CurrentConnections ∧
    connRun NewAdaptiveDownloader.MinConnections
          NewAdaptiveDownloader.MaxConnections hs
          NewAdaptiveDownloader.CurrentConnections ≤ 16 :=
  connRun_bounds 2 16 hs 4 (by decide) (by decide)

/-- C1 counterexample: with the 3 most recent durations 5s, 5s and 5s + 1ns,
their exact arithmetic mean exceeds 5 seconds and the current count 4 is above
the minimum 2, so the claim demands a decrement; the code's truncating
division computes an average of exactly 5s and leaves the count at 4. -/
theorem calc_exact_mean_counterexample :
    3 * 5000000000 <
      (AdaptiveState.ChunkTimes
          ⟨[5000000000, 5000000000, 5000000001], 4, 2, 16⟩).sum ∧
    (AdaptiveState.MinConnections
          ⟨([5000000000, 5000000000, 5000000001] : List Nat), 4, 2, 16⟩) <
      (AdaptiveState.CurrentConnections
          ⟨([5000000000, 5000000000, 5000000001] : List Nat), 4, 2, 16⟩) ∧
    (calculateOptimalConnections
          ⟨[5000000000, 5000000000, 5000000001], 4, 2, 16⟩).CurrentConnections
      = 4 := by
  refine ⟨by norm_num, by decide, ?_⟩
  decide

/-- C1 (amended): the case analysis of the claim holds with `m` taken as the
code's computed mean — the sum of the 3 most recent durations divided by 3
with truncating integer division at nanosecond resolution (Go `Duration`
division), rather than the exact arithmetic mean. -/
theorem calc_optimal_connections_cases (s : AdaptiveState) :
    (s.ChunkTimes.length < 3 → calculateOptimalConnections s = s) ∧
    (3 ≤ s.ChunkTimes.length →
      ((s.ChunkTimes.drop (s.ChunkTimes.length - 3)).sum / 3 < 2000000000 →
        s.CurrentConnections < s.MaxConnections →
        calculateOptimalConnections s =
          ⟨s.ChunkTimes, s.CurrentConnections + 1, s.MinConnections,
            s.MaxConnections⟩) ∧
      ((s.ChunkTimes.drop (s.ChunkTimes.length - 3)).sum / 3 < 2000000000 →
        ¬ s.CurrentConnections < s.MaxConnections →
        calculateOptimalConnections s = s) ∧
      (5000000000 < (s.ChunkTimes.drop (s.ChunkTimes.length - 3)).sum / 3 →
        s.MinConnections < s.CurrentConnections →
        calculateOptimalConnections s =
          ⟨s.ChunkTimes, s.CurrentConnections - 1, s.MinConnections,
            s.MaxConnections⟩) ∧
      (5000000000 < (s.ChunkTimes.drop (s.ChunkTimes.length - 3)).sum / 3 →
        ¬ s.MinConnections < s.CurrentConnections →
        calculateOptimalConnections s = s) ∧
      (2000000000 ≤ (s.ChunkTimes.drop (s.ChunkTimes.length - 3)).sum / 3 →
        (s.ChunkTimes.drop (s.ChunkTimes.length - 3)).sum / 3 ≤ 5000000000 →
        calculateOptimalConnections s = s)) := by
  have hlen : 3 ≤ s.ChunkTimes.length →
      (s.ChunkTimes.drop (s.ChunkTimes.length - 3)).length = 3 := by
    intro h
    rw [List.length_drop]
    omega
  constructor
  · intro h
    unfold calculateOptimalConnections
    rw [if_pos h]
  · intro h3
    have hL := hlen h3
    have hnotlt : ¬ s.ChunkTimes.length < 3 := by omega
    refine ⟨?_, ?_, ?_, ?_, ?_⟩
    · intro hm hc
      unfold calculateOptimalConnections
      rw [if_neg hnotlt]
      dsimp only
      rw [hL, if_pos ⟨hm, hc⟩]
    · intro hm hc
      unfold calculateOptimalConnections
      rw [if_neg hnotlt]
      dsimp only
      rw [hL, if_neg (by tauto), if_neg (by omega)]
    · intro hm hc
      unfold calculateOptimalConnections
      rw [if_neg hnotlt]
      dsimp only
      rw [hL, if_neg (by omega), if_pos ⟨hm, hc⟩]
    · intro hm hc
      unfold calculateOptimalConnections
      rw [if_neg hnotlt]
      dsimp only
      rw [hL, if_neg (by omega), if_neg (by tauto)]
    · intro hm1 hm2
      unfold calculateOptimalConnections
      rw [if_neg hnotlt]
      dsimp only
      rw [hL, if_neg (by omega), if_neg (by omega)]

/-- Witness for `calc_optimal_connections_cases` at a concrete state: 3 samples
of 1s each (computed mean 1s < 2s), current 4 below maximum 16, so the count
becomes 5. -/
theorem calc_optimal_connections_cases_witness :
    (3 ≤ (AdaptiveState.ChunkTimes
        ⟨[1000000000, 1000000000, 1000000000], 4, 2, 16⟩).length) ∧
    calculateOptimalConnections
        ⟨[1000000000, 1000000000, 1000000000], 4, 2, 16⟩ =
      ⟨[1000000000, 1000000000, 1000000000], 5, 2, 16⟩ :=
  ⟨by decide,
    ((calc_optimal_connections_cases
        ⟨[1000000000, 1000000000, 1000000000], 4, 2, 16⟩).2
      (by decide)).1 (by decide) (by decide)⟩

/-- Embedding of the chunk-creation loop in `Download` (main.go): starting at
offset `i` with `idx` chunks already created, while `i < S` emit the chunk
`[i, i+L-1]` (end clamped to `S-1`) and advance by `L`.  The `0 < L` guard
only totalises the Go loop, which does not terminate for `L = 0`. -/
def makeChunksAux (S L i idx : Nat) : List ChunkInfo :=
  if h : 0 < L ∧ i < S then
    ⟨i, if S ≤ i + L - 1 then S - 1 else i + L - 1, idx⟩ ::
      makeChunksAux S L (i + L) (idx + 1)
  else []
termination_by S - i
decreasing_by omega

/-- The full chunk list planned by `Download` for total size `S` and chunk
size `L` (the loop starts at offset 0 with an empty list). -/
def makeChunks (S L : Nat) : List ChunkInfo :=
  makeChunksAux S L 0 0

/-- The closed form of the `k`-th chunk produced from offset `i` and index
base `idx`. -/
def plannedChunk (S L i idx k : Nat) : ChunkInfo :=
  ⟨i + k * L, if S ≤ i + k * L + L - 1 then S - 1 else i + k * L + L - 1,
    idx + k⟩

lemma makeChunksAux_closed (L : Nat) (hL : 0 < L) :
    ∀ n S i idx, (S - i + L - 1) / L = n →
      makeChunksAux S L i idx = (List.range n).map (plannedChunk S L i idx) := by
  intro n
  induction n with
  | zero =>
    intro S i idx h
    have hSi : S ≤ i := by
      by_contra hc
      have h1 : 1 * L ≤ S - i + L - 1 := by omega
      have h2 : 1 ≤ (S - i + L - 1) / L := (Nat.le_div_iff_mul_le hL).mpr h1
      omega
    rw [makeChunksAux, dif_neg (by omega)]
    simp
  | succ n ih =>
    intro S i idx h
    have hiS : i < S := by
      by_contra hc
      have h0 : S - i = 0 := by omega
      have : (S - i + L - 1) / L = 0 := by
        rw [h0]
        exact Nat.div_eq_of_lt (by omega)
      omega
    have hrec : (S - (i + L) + L - 1) / L = n := by
      rcases le_or_lt (S - i) L with hc | hc
      · have h2 : (S - i + L - 1) / L = 1 := by
          rcases Nat.lt_or_ge ((S - i + L - 1) / L) 2 with hd | hd
          · have h1 : 1 * L ≤ S - i + L - 1 := by omega
            have h2 := (Nat.le_div_iff_mul_le hL).mpr h1
            omega
          · have h3 : 2 * L ≤ S - i + L - 1 := (Nat.le_div_iff_mul_le hL).mp hd
            omega
        have h1 : S - (i + L) = 0 := by omega
        rw [h1]
        have h0 : (0 + L - 1) / L = 0 := Nat.div_eq_of_lt (by omega)
        omega
      · have h4 : S - (i + L) + L - 1 = S - i - 1 := by omega
        have h3 : S - i + L - 1 = (S - i - 1) + L := by omega
        rw [h4]
        rw [h3, Nat.add_div_right _ hL] at h
        omega
    rw [makeChunksAux, dif_pos ⟨hL, hiS⟩, ih S (i + L) (idx + 1) hrec]
    rw [List.range_succ_eq_map]
    simp only [List.map_cons, List.map_map]
    congr 1
    · simp [plannedChunk]
    · apply List.map_congr_left
      intro k _
      have hx : i + L + k * L = i + (k + 1) * L := by
        have hs : (k + 1) * L = k * L + L := Nat.succ_mul k L
        omega
      simp only [Function.comp_apply, plannedChunk]
      rw [show idx + 1 + k = idx + (k + 1) by omega]
      rw [hx]

lemma makeChunks_closed (S L : Nat) (hL : 0 < L) :
    makeChunks S L = (List.range ((S + L - 1) / L)).map (plannedChunk S L 0 0) := by
  unfold makeChunks
  exact makeChunksAux_closed L hL _ S 0 0 (by rw [Nat.sub_zero])

lemma lt_numChunks_iff (S L k : Nat) (hL : 0 < L) :
    k < (S + L - 1) / L ↔ k * L < S := by
  rw [Nat.lt_iff_add_one_le, Nat.le_div_iff_mul_le hL]
  have hs : (k + 1) * L = k * L + L := Nat.succ_mul k L
  omega

lemma makeChunks_length (S L : Nat) (hL : 0 < L) :
    (makeChunks S L).length = (S + L - 1) / L := by
  rw [makeChunks_closed S L hL]
  simp

lemma makeChunks_get (S L k : Nat) (hL : 0 < L)
    (hk : k < (makeChunks S L).length) :
    (makeChunks S L).get ⟨k, hk⟩ =
      ⟨k * L, if S ≤ k * L + L - 1 then S - 1 else k * L + L - 1, k⟩ := by
  have hcl := makeChunks_closed S L hL
  have hk' : k < (S + L - 1) / L := by
    rw [← makeChunks_length S L hL]
    exact hk
  rw [List.get_eq_getElem]
  simp only [hcl, List.getElem_map, List.getElem_range, plannedChunk,
    Nat.zero_add]

lemma makeChunks_get_lt (S L k : Nat) (hL : 0 < L)
    (hk : k < (makeChunks S L).length) : k * L < S := by
  rw [makeChunks_length S L hL] at hk
  exact (lt_numChunks_iff S L k hL).mp hk

/-- The Chunk Planner contract of the claim, for total size `S` and chunk
length `L`: an empty plan for `S = 0`; indices `0, 1, 2, …` in planned
order; starts ordered and increasing; contiguous, non-overlapping segments;
every segment of length `L` except the last, whose end is clamped to
`S - 1`; and the segments exactly covering `[0, S)`. -/
def ChunkPlanSpec (S L : Nat) : Prop :=
  (S = 0 → makeChunks S L = []) ∧
  (makeChunks S L).length = (S + L - 1) / L ∧
  (∀ k (hk : k < (makeChunks S L).length),
    ((makeChunks S L).get ⟨k, hk⟩).Index = k) ∧
  (∀ k (hk : k < (makeChunks S L).length),
    ((makeChunks S L).get ⟨k, hk⟩).Start = k * L) ∧
  (∀ j k (hj : j < (makeChunks S L).length) (hk : k < (makeChunks S L).length),
    j < k →
    ((makeChunks S L).get ⟨j, hj⟩).Start < ((makeChunks S L).get ⟨k, hk⟩).Start) ∧
  (∀ k (hk1 : k + 1 < (makeChunks S L).length) (hk : k < (makeChunks S L).length),
    ((makeChunks S L).get ⟨k + 1, hk1⟩).Start =
      ((makeChunks S L).get ⟨k, hk⟩).End + 1) ∧
  (∀ j k (hj : j < (makeChunks S L).length) (hk : k < (makeChunks S L).length),
    j < k →
    ((makeChunks S L).get ⟨j, hj⟩).End < ((makeChunks S L).get ⟨k, hk⟩).Start) ∧
  (∀ k (hk : k < (makeChunks S L).length), k + 1 < (makeChunks S L).length →
    ((makeChunks S L).get ⟨k, hk⟩).End + 1 =
      ((makeChunks S L).get ⟨k, hk⟩).Start + L) ∧
  (∀ k (hk : k < (makeChunks S L).length), k + 1 = (makeChunks S L).length →
    ((makeChunks S L).get ⟨k, hk⟩).End = S - 1) ∧
  (∀ k (hk : k < (makeChunks S L).length),
    ((makeChunks S L).get ⟨k, hk⟩).Start ≤ ((makeChunks S L).get ⟨k, hk⟩).End ∧
    ((makeChunks S L).get ⟨k, hk⟩).End < S) ∧
  (∀ b, b < S → ∃ k, ∃ hk : k < (makeChunks S L).length,
    ((makeChunks S L).get ⟨k, hk⟩).Start ≤ b ∧
    b ≤ ((makeChunks S L).get ⟨k, hk⟩).End)

/-- C3: for every total size `S ≥ 0` and chunk length `L > 0`, the chunk list
planned by `Download` satisfies the full Chunk Planner contract
(`ChunkPlanSpec`). -/
theorem makeChunks_plan_correct (S L : Nat) (hL : 0 < L) : ChunkPlanSpec S L := by
  have hget := fun k hk => makeChunks_get S L k hL hk
  have hlt := fun k hk => makeChunks_get_lt S L k hL hk
  have hlen := makeChunks_length S L hL
  have hmul : ∀ j k : Nat, j < k → j * L < k * L := by
    intro j k hjk
    exact Nat.mul_lt_mul_of_lt_of_le hjk (Nat.le_refl L) hL
  have hmul_le : ∀ j k : Nat, j ≤ k → j * L ≤ k * L := by
    intro j k hjk
    exact Nat.mul_le_mul_right L hjk
  refine ⟨?_, hlen, ?_, ?_, ?_, ?_, ?_, ?_, ?_, ?_, ?_⟩
  · intro hS
    subst hS
    have : (makeChunks 0 L).length = 0 := by
      rw [hlen]
      have : (0 + L - 1) / L = 0 := Nat.div_eq_of_lt (by omega)
      omega
    exact List.length_eq_zero.mp this
  · intro k hk
    rw [hget k hk]
  · intro k hk
    rw [hget k hk]
  · intro j k hj hk hjk
    rw [hget j hj, hget k hk]
    exact hmul j k hjk
  · intro k hk1 hk
    rw [hget (k + 1) hk1, hget k hk]
    have hk1' : (k + 1) * L < S := hlt (k + 1) hk1
    have hcond : ¬ S ≤ k * L + L - 1 := by
      have hs : (k + 1) * L = k * L + L := Nat.succ_mul k L
      omega
    rw [if_neg hcond]
    have hs : (k + 1) * L = k * L + L := Nat.succ_mul k L
    dsimp only
    omega
  · intro j k hj hk hjk
    rw [hget j hj, hget k hk]
    have hj1 : j + 1 ≤ k := hjk
    have hkS : k * L < S := hlt k hk
    have hle : (j + 1) * L ≤ k * L := hmul_le (j + 1) k hj1
    have hs : (j + 1) * L = j * L + L := Nat.succ_mul j L
    dsimp only
    split
    · omega
    · omega
  · intro k hk hk1
    rw [hget k hk]
    have hk1' : (k + 1) * L < S := by
      rw [hlen] at hk1
      exact (lt_numChunks_iff S L (k + 1) hL).mp hk1
    have hs : (k + 1) * L = k * L + L := Nat.succ_mul k L
    have hcond : ¬ S ≤ k * L + L - 1 := by omega
    rw [if_neg hcond]
    dsimp only
    omega
  · intro k hk hklast
    rw [hget k hk]
    have hkS : k * L < S := hlt k hk
    have hnS : ¬ ((k + 1) * L < S) := by
      intro hcon
      have : k + 1 < (S + L - 1) / L := (lt_numChunks_iff S L (k + 1) hL).mpr hcon
      omega
    have hs : (k + 1) * L = k * L + L := Nat.succ_mul k L
    dsimp only
    split
    · rfl
    · omega
  · intro k hk
    rw [hget k hk]
    have hkS : k * L < S := hlt k hk
    dsimp only
    split
    · omega
    · omega
  · intro b hb
    refine ⟨b / L, ?_, ?_⟩
    · rw [hlen]
      apply (lt_numChunks_iff S L (b / L) hL).mpr
      have := Nat.div_mul_le_self b L
      omega
    · have hbk : b / L < (makeChunks S L).length := by
        rw [hlen]
        apply (lt_numChunks_iff S L (b / L) hL).mpr
        have := Nat.div_mul_le_self b L
        omega
      rw [hget (b / L) hbk]
      have h1 := Nat.div_add_mod b L
      have h2 : b % L < L := Nat.mod_lt b hL
      have h3 := Nat.div_mul_le_self b L
      have h4 : L * (b / L) = b / L * L := Nat.mul_comm L (b / L)
      dsimp only
      constructor
      · omega
      · split
        · omega
        · omega

/-- Witness for `makeChunks_plan_correct` at `S = 10`, `L = 3`: four chunks
`[0,2], [3,5], [6,8], [9,9]`. -/
theorem makeChunks_plan_correct_witness : 0 < 3 ∧ ChunkPlanSpec 10 3 :=
  ⟨by decide, makeChunks_plan_correct 10 3 (by decide)⟩

/-- Value of a decimal digit character, `none` for any other character. -/
def digitVal (c : Char) : Option Nat :=
  if '0' ≤ c ∧ c ≤ '9' then some (c.toNat - 48) else none

/-- Base-10 accumulating parse of a character list; fails on the first
non-digit character (Go `strconv.ParseUint` body, base 10). -/
def parseDecDigits : List Char → Nat → Option Nat
  | [], acc => some acc
  | c :: cs, acc =>
    match digitVal c with
    | none => none
    | some d => parseDecDigits cs (acc * 10 + d)

/-- Embedding of Go `strconv.ParseInt(s, 10, 64)` as called by `getFileSize`:
optional single sign, at least one digit, only digits, and the value within
the signed 64-bit range; `none` models a non-nil error. -/
def goParseInt64 (s : String) : Option Int :=
  match s.data with
  | [] => none
  | c :: rest =>
    let p : Bool × List Char :=
      if c = '-' then (true, rest)
      else if c = '+' then (false, rest)
      else (false, c :: rest)
    match p.2 with
    | [] => none
    | _ :: _ =>
      match parseDecDigits p.2 0 with
      | none => none
      | some n =>
        if p.1 then
          if n ≤ 9223372036854775808 then some (-(n : Int)) else none
        else if n ≤ 9223372036854775807 then some (n : Int) else none

/-- The error cases of `getFileSize`: an unreachable server (`http.Head`
error), a non-200 status, or an unparsable `Content-Length` value. -/
inductive ProbeErr
  | connectivity
  | serverStatus (code : Nat)
  | parseMalformed
deriving DecidableEq

/-- The response observed by the HEAD probe.  `contentLength` and
`acceptRanges` are the `Header.Get` results, which return `""` when the
header is absent. -/
structure ProbeResponse where
  statusCode : Nat
  contentLength : String
  acceptRanges : String

/-- Embedding of `getFileSize` (main.go): `none` models an `http.Head`
error.  The first component is the resulting `d.FileSize` field (initially 0,
`-1` marking an unknown size), the second the `(bool, error)` return pair. -/
def getFileSize (resp : Option ProbeResponse) : Int × Except ProbeErr Bool :=
  match resp with
  | none => (0, .error .connectivity)
  | some r =>
    if r.statusCode ≠ 200 then (0, .error (.serverStatus r.statusCode))
    else if r.contentLength = "" then (-1, .ok false)
    else
      match goParseInt64 r.contentLength with
      | none => (0, .error .parseMalformed)
      | some v => (v, .ok (r.acceptRanges == "bytes"))

/-- C4: on a 200 probe response, a parsable `Content-Length` is recorded as
the size and range support is reported true exactly when `Accept-Ranges`
equals `"bytes"`; an absent `Content-Length` yields size `-1` (unknown) and
range support false regardless of the `Accept-Ranges` value. -/
theorem getFileSize_probe_correct (cl ar : String) (v : Int) :
    (goParseInt64 cl = some v →
      getFileSize (some ⟨200, cl, ar⟩) = (v, Except.ok (ar == "bytes"))) ∧
    getFileSize (some ⟨200, "", ar⟩) = (-1, Except.ok false) := by
  constructor
  · intro hv
    by_cases hcl : cl = ""
    · subst hcl
      exact absurd hv (by intro hc; simp [goParseInt64] at hc)
    · unfold getFileSize
      dsimp only
      rw [if_neg (by omega), if_neg hcl, hv]
  · unfold getFileSize
    dsimp only
    rw [if_neg (by omega), if_pos rfl]

/-- Witness for `getFileSize_probe_correct`: status 200 with
`Content-Length: 1024` and `Accept-Ranges: bytes` yields size 1024 and range
support; the same status without `Content-Length` yields size `-1` and no
range support. -/
theorem getFileSize_probe_correct_witness :
    goParseInt64 "1024" = some 1024 ∧
    getFileSize (some ⟨200, "1024", "bytes"⟩) = (1024, Except.ok true) ∧
    getFileSize (some ⟨200, "", "nope"⟩) = (-1, Except.ok false) := by
  have hp : goParseInt64 "1024" = some 1024 := by decide
  refine ⟨hp, ?_, (getFileSize_probe_correct "1024" "nope" 0).2⟩
  rw [(getFileSize_probe_correct "1024" "bytes" 1024).1 hp]
  rfl

/-- The error slot of the final `Read` call on a body: `io.EOF` or any other
read error (every Go body stream eventually returns one of the two). -/
inductive ReadEnd
  | eofMark
  | readFail
deriving DecidableEq

/-- A response body as observed through repeated `resp.Body.Read` calls: a
list of error-free reads (each delivering `n ≥ 0` bytes) followed by a final
read delivering `lastData` together with `lastEnd`. -/
structure BodyStream where
  reads : List (List Nat)
  lastData : List Nat
  lastEnd : ReadEnd
deriving DecidableEq

/-- Errors a chunk fetch or the fallback fetch can return. -/
inductive DlErr
  | createFail
  | reqFail
  | badStatus (code : Nat)
  | writeFail
  | bodyFail
deriving DecidableEq

/-- The read/write loop of `downloadChunk`: each non-empty buffer is written
at the running offset (`file.WriteAt`), the offset advances by the buffer
length and the shared byte counter is bumped; a write failure, then `io.EOF`
or a read error, ends the loop.  `wfail k` states that the `k`-th positioned
write call fails. -/
def chunkReadLoop (wfail : Nat → Bool) :
    List (List Nat) → List Nat → ReadEnd → Nat → Nat →
    List (Nat × List Nat) × Nat × Option DlErr
  | [], lastData, lastEnd, w, offset =>
    if lastData = [] then
      match lastEnd with
      | .eofMark => ([], 0, none)
      | .readFail => ([], 0, some .bodyFail)
    else
      if wfail w then ([], 0, some .writeFail)
      else
        match lastEnd with
        | .eofMark => ([(offset, lastData)], lastData.length, none)
        | .readFail => ([(offset, lastData)], lastData.length, some .bodyFail)
  | d :: rest, lastData, lastEnd, w, offset =>
    if d = [] then chunkReadLoop wfail rest lastData lastEnd w offset
    else
      if wfail w then ([], 0, some .writeFail)
      else
        let r := chunkReadLoop wfail rest lastData lastEnd (w + 1) (offset + d.length)
        ((offset, d) :: r.1, d.length + r.2.1, r.2.2)

/-- A ranged-request response: status code and body stream. -/
structure ChunkResp where
  status : Nat
  body : BodyStream
deriving DecidableEq

/-- Result of one `downloadChunk` call: the positioned writes it performed
(offset, data), the total it added to `Stats.BytesDownloaded`, the duration
samples appended to `Stats.ChunkTimes` (the deferred append), and the
returned error (`none` = nil). -/
structure ChunkFetchResult where
  writes : List (Nat × List Nat)
  bytesAdded : Nat
  samples : List Nat
  result : Option DlErr
deriving DecidableEq

/-- Embedding of `downloadChunk` (main.go).  `resp = none` models a request
creation or transport error; `dur` is the wall-clock duration measured by the
deferred `time.Since`, appended on every exit path. -/
def downloadChunk (chunk : ChunkInfo) (resp : Option ChunkResp)
    (wfail : Nat → Bool) (dur : Nat) : ChunkFetchResult :=
  match resp with
  | none => ⟨[], 0, [dur], some .reqFail⟩
  | some r =>
    if r.status ≠ 206 then ⟨[], 0, [dur], some (.badStatus r.status)⟩
    else
      let t := chunkReadLoop wfail r.body.reads r.body.lastData r.body.lastEnd
        0 chunk.Start
      ⟨t.1, t.2.1, [dur], t.2.2⟩

/-- C10: every `downloadChunk` invocation appends exactly one duration sample
to the shared history, on every exit path — request error, non-206 status,
write error, mid-stream read error, or success. -/
theorem downloadChunk_always_records_duration (chunk : ChunkInfo)
    (resp : Option ChunkResp) (wfail : Nat → Bool) (dur : Nat) :
    (downloadChunk chunk resp wfail dur).samples = [dur] := by
  unfold downloadChunk
  match resp with
  | none => rfl
  | some r =>
    dsimp only
    split
    · rfl
    · rfl

/-- Status of one worker goroutine of the range-download pool. -/
inductive WStatus
  | idle
  | working (c : ChunkInfo)
  | stopped (failed : Bool)
deriving DecidableEq

/-- Shared state of the range-download pool in `Download`: the worker count
fixed at pool start, the chunk queue (`chunkChan`, pre-filled and closed),
the workers, and the number of errors sent on `errChan`. -/
structure PoolState where
  wcount : Nat
  queue : List ChunkInfo
  workers : Nat → WStatus
  errs : Nat

/-- Small-step semantics of the worker pool in `Download`, with `ok c` saying
whether `downloadChunk` on chunk `c` returns nil.  A worker dequeues the next
chunk (`dispatch`), finishes it and loops (`finishOk`), fails it, sends on
`errChan` and returns (`finishFail`), or returns when the closed queue is
empty (`exitDone`).  Only the failing worker leaves the loop; nothing stops
the other workers from dispatching further chunks. -/
inductive PoolStep (ok : ChunkInfo → Bool) : PoolState → PoolState → Prop
  | dispatch (s : PoolState) (i : Nat) (c : ChunkInfo) (q' : List ChunkInfo) :
      i < s.wcount → s.workers i = .idle → s.queue = c :: q' →
      PoolStep ok s
        ⟨s.wcount, q', Function.update s.workers i (.working c), s.errs⟩
  | exitDone (s : PoolState) (i : Nat) :
      i < s.wcount → s.workers i = .idle → s.queue = [] →
      PoolStep ok s
        ⟨s.wcount, [], Function.update s.workers i (.stopped false), s.errs⟩
  | finishOk (s : PoolState) (i : Nat) (c : ChunkInfo) :
      i < s.wcount → s.workers i = .working c → ok c = true →
      PoolStep ok s
        ⟨s.wcount, s.queue, Function.update s.workers i .idle, s.errs⟩
  | finishFail (s : PoolState) (i : Nat) (c : ChunkInfo) :
      i < s.wcount → s.workers i = .working c → ok c = false →
      PoolStep ok s
        ⟨s.wcount, s.queue, Function.update s.workers i (.stopped true),
          s.errs + 1⟩

/-- After `wg.Wait()`, `Download` polls `errChan` and returns the error if one
was sent: the transfer reports failure exactly when `errs` is positive. -/
def downloadFailed (s : PoolState) : Prop := 0 < s.errs

lemma poolStep_errs_le {ok : ChunkInfo → Bool} {s s' : PoolState}
    (h : PoolStep ok s s') : s.errs ≤ s'.errs := by
  cases h <;> dsimp only <;> omega

lemma poolReach_errs_le {ok : ChunkInfo → Bool} {s t : PoolState}
    (h : Relation.ReflTransGen (PoolStep ok) s t) : s.errs ≤ t.errs := by
  induction h with
  | refl => exact Nat.le_refl _
  | tail _ hbc ih => exact Nat.le_trans ih (poolStep_errs_le hbc)

/-- C5: a ranged fetch whose response status is not 206 returns a status error
without writing a single byte; and once any worker has sent an error, every
state the pool can reach — including ones where other workers finished more
segments successfully — makes `Download` report failure. -/
theorem non_partial_content_fatal (resps : ChunkInfo → Option ChunkResp)
    (wfs : ChunkInfo → Nat → Bool) (durs : ChunkInfo → Nat) :
    (∀ c r, resps c = some r → r.status ≠ 206 →
      (downloadChunk c (resps c) (wfs c) (durs c)).writes = [] ∧
      (downloadChunk c (resps c) (wfs c) (durs c)).result =
        some (DlErr.badStatus r.status)) ∧
    (∀ s t,
      Relation.ReflTransGen
        (PoolStep
          (fun c => ((downloadChunk c (resps c) (wfs c) (durs c)).result).isNone))
        s t →
      0 < s.errs → downloadFailed t) := by
  constructor
  · intro c r hr hs
    rw [hr]
    unfold downloadChunk
    dsimp only
    rw [if_pos hs]
    exact ⟨rfl, rfl⟩
  · intro s t ht hs
    exact Nat.lt_of_lt_of_le hs (poolReach_errs_le ht)

/-- Witness for `non_partial_content_fatal`: a 200 response to a ranged fetch
for chunk 0 yields no writes and a status error, and a pool state holding one
sent error reports failure. -/
theorem non_partial_content_fatal_witness :
    ((downloadChunk ⟨0, 0, 0⟩ (some ⟨200, ⟨[], [], .eofMark⟩⟩)
        (fun _ => false) 0).writes = [] ∧
      (downloadChunk ⟨0, 0, 0⟩ (some ⟨200, ⟨[], [], .eofMark⟩⟩)
        (fun _ => false) 0).result = some (DlErr.badStatus 200)) ∧
    downloadFailed ⟨1, [], fun _ => WStatus.stopped true, 1⟩ :=
  ⟨(non_partial_content_fatal (fun _ => some ⟨200, ⟨[], [], .eofMark⟩⟩)
      (fun _ => fun _ => false) (fun _ => 0)).1 ⟨0, 0, 0⟩
      ⟨200, ⟨[], [], .eofMark⟩⟩ rfl (by decide),
    (non_partial_content_fatal (fun _ => some ⟨200, ⟨[], [], .eofMark⟩⟩)
      (fun _ => fun _ => false) (fun _ => 0)).2
      ⟨1, [], fun _ => WStatus.stopped true, 1⟩
      ⟨1, [], fun _ => WStatus.stopped true, 1⟩
      Relation.ReflTransGen.refl (by decide)⟩

/-- C7 counterexample: a reachable execution in which worker 0 fails the first
chunk (the error is already on `errChan`, `errs = 1`) and worker 1 then
dequeues and starts the second chunk — a new segment is dispatched after the
first fatal error was observed, refuting the claim's "no new segments are
dispatched to any worker". -/
theorem pool_dispatch_after_error_counterexample :
    Relation.ReflTransGen (PoolStep (fun c => decide (0 < c.Index)))
      ⟨2, [⟨0, 1048575, 0⟩, ⟨1048576, 2097151, 1⟩], fun _ => WStatus.idle, 0⟩
      ⟨2, [⟨1048576, 2097151, 1⟩],
        Function.update
          (Function.update (fun _ => WStatus.idle) 0
            (WStatus.working ⟨0, 1048575, 0⟩)) 0 (WStatus.stopped true), 1⟩ ∧
    0 < (PoolState.errs
      ⟨2, [⟨1048576, 2097151, 1⟩],
        Function.update
          (Function.update (fun _ => WStatus.idle) 0
            (WStatus.working ⟨0, 1048575, 0⟩)) 0 (WStatus.stopped true), 1⟩) ∧
    PoolStep (fun c => decide (0 < c.Index))
      ⟨2, [⟨1048576, 2097151, 1⟩],
        Function.update
          (Function.update (fun _ => WStatus.idle) 0
            (WStatus.working ⟨0, 1048575, 0⟩)) 0 (WStatus.stopped true), 1⟩
      ⟨2, [],
        Function.update
          (Function.update
            (Function.update (fun _ => WStatus.idle) 0
              (WStatus.working ⟨0, 1048575, 0⟩)) 0 (WStatus.stopped true)) 1
          (WStatus.working ⟨1048576, 2097151, 1⟩), 1⟩ ∧
    ([] : List ChunkInfo) ≠ [⟨1048576, 2097151, 1⟩] := by
  refine ⟨?_, by decide, ?_, by decide⟩
  · exact Relation.ReflTransGen.tail
      (Relation.ReflTransGen.single
        (PoolStep.dispatch _ 0 ⟨0, 1048575, 0⟩ [⟨1048576, 2097151, 1⟩]
          (by decide) rfl rfl))
      (PoolStep.finishFail _ 0 ⟨0, 1048575, 0⟩ (by decide)
        (by simp [Function.update]) (by decide))
  · exact PoolStep.dispatch _ 1 ⟨1048576, 2097151, 1⟩ []
      (by decide) (by simp [Function.update]) rfl

/-- C7 (amended): after the first fatal segment error, only the worker that
observed it stops dispatching — a worker in the failed-stopped state never
changes state again, so it begins no further segment — and every state the
pool subsequently reaches keeps the error, so the overall transfer reports
failure; the remaining workers, however, may continue to dispatch the
remaining queue (the code has no cross-worker cancellation). -/
theorem pool_first_failure_semantics (ok : ChunkInfo → Bool) :
    (∀ s s' i, PoolStep ok s s' → s.workers i = WStatus.stopped true →
      s'.workers i = WStatus.stopped true) ∧
    (∀ s t, Relation.ReflTransGen (PoolStep ok) s t → downloadFailed s →
      downloadFailed t) := by
  constructor
  · intro s s' i hstep hstop
    cases hstep with
    | dispatch j c q' hjw hw hq =>
      dsimp only
      by_cases hij : i = j
      · subst hij
        rw [hstop] at hw
        exact absurd hw (by simp)
      · rw [Function.update_noteq hij]
        exact hstop
    | exitDone j hjw hw hq =>
      dsimp only
      by_cases hij : i = j
      · subst hij
        rw [hstop] at hw
        exact absurd hw (by simp)
      · rw [Function.update_noteq hij]
        exact hstop
    | finishOk j c hjw hw hok =>
      dsimp only
      by_cases hij : i = j
      · subst hij
        rw [hstop] at hw
        exact absurd hw (by simp)
      · rw [Function.update_noteq hij]
        exact hstop
    | finishFail j c hjw hw hok =>
      dsimp only
      by_cases hij : i = j
      · subst hij
        rw [hstop] at hw
        exact absurd hw (by simp)
      · rw [Function.update_noteq hij]
        exact hstop
  · intro s t ht hs
    exact Nat.lt_of_lt_of_le hs (poolReach_errs_le ht)

/-- Witness for `pool_first_failure_semantics`: with worker 0 already
failed-stopped and one error sent, worker 1 dispatching the queued chunk
leaves worker 0 stopped and the transfer still failing. -/
theorem pool_first_failure_semantics_witness :
    PoolStep (fun _ => true)
      ⟨2, [⟨0, 0, 0⟩],
        (fun j => if j = 0 then WStatus.stopped true else WStatus.idle), 1⟩
      ⟨2, [],
        Function.update
          (fun j => if j = 0 then WStatus.stopped true else WStatus.idle) 1
          (WStatus.working ⟨0, 0, 0⟩), 1⟩ ∧
    Function.update
      (fun j => if j = 0 then WStatus.stopped true else WStatus.idle) 1
      (WStatus.working ⟨0, 0, 0⟩) 0 = WStatus.stopped true ∧
    downloadFailed
      ⟨2, [],
        Function.update
          (fun j => if j = 0 then WStatus.stopped true else WStatus.idle) 1
          (WStatus.working ⟨0, 0, 0⟩), 1⟩ := by
  have hstep : PoolStep (fun _ => true)
      ⟨2, [⟨0, 0, 0⟩],
        (fun j => if j = 0 then WStatus.stopped true else WStatus.idle), 1⟩
      ⟨2, [],
        Function.update
          (fun j => if j = 0 then WStatus.stopped true else WStatus.idle) 1
          (WStatus.working ⟨0, 0, 0⟩), 1⟩ :=
    PoolStep.dispatch _ 1 ⟨0, 0, 0⟩ [] (by decide) (by decide) rfl
  refine ⟨hstep, ?_, ?_⟩
  · exact (pool_first_failure_semantics (fun _ => true)).1 _ _ 0 hstep (by decide)
  · exact (pool_first_failure_semantics (fun _ => true)).2 _ _
      (Relation.ReflTransGen.single hstep) Nat.one_pos

/-- Layout of a list of positioned writes: the first write starts exactly at
`off`, every write is non-empty, and each following write starts right after
the previous one ends. -/
def writesFrom (off : Nat) : List (Nat × List Nat) → Prop
  | [] => True
  | w :: rest => w.1 = off ∧ w.2 ≠ [] ∧ writesFrom (off + w.2.length) rest

lemma chunkReadLoop_layout (wfail : Nat → Bool) :
    ∀ (reads : List (List Nat)) (lastData : List Nat) (lastEnd : ReadEnd)
      (w offset : Nat),
      writesFrom offset (chunkReadLoop wfail reads lastData lastEnd w offset).1 ∧
      ((chunkReadLoop wfail reads lastData lastEnd w offset).1.map
          (fun p => p.2.length)).sum ≤
        (reads.map List.length).sum + lastData.length := by
  intro reads
  induction reads with
  | nil =>
    intro lastData lastEnd w offset
    by_cases hld : lastData = []
    · subst hld
      cases lastEnd with
      | eofMark => simp [chunkReadLoop, writesFrom]
      | readFail => simp [chunkReadLoop, writesFrom]
    · by_cases hw : wfail w = true
      · simp [chunkReadLoop, hld, hw, writesFrom]
      · cases lastEnd with
        | eofMark => simp [chunkReadLoop, hld, hw, writesFrom]
        | readFail => simp [chunkReadLoop, hld, hw, writesFrom]
  | cons d rest ih =>
    intro lastData lastEnd w offset
    by_cases hd : d = []
    · subst hd
      have h := ih lastData lastEnd w offset
      simp only [chunkReadLoop, if_pos rfl]
      simpa using h
    · by_cases hw : wfail w = true
      · simp [chunkReadLoop, hd, hw, writesFrom]
      · have h := ih lastData lastEnd (w + 1) (offset + d.length)
        simp only [chunkReadLoop, if_neg hd, hw, Bool.false_eq_true,
          if_false, List.map_cons, List.sum_cons]
        refine ⟨⟨rfl, hd, h.1⟩, ?_⟩
        have := h.2
        omega

lemma writesFrom_span (ws : List (Nat × List Nat)) :
    ∀ off, writesFrom off ws →
      ∀ p ∈ ws, p.2 ≠ [] ∧ off ≤ p.1 ∧
        p.1 + p.2.length ≤ off + (ws.map (fun q => q.2.length)).sum := by
  induction ws with
  | nil =>
    intro off _ p hp
    exact absurd hp (List.not_mem_nil p)
  | cons v rest ih =>
    intro off h p hp
    obtain ⟨h1, h2, h3⟩ := h
    rcases List.mem_cons.mp hp with hpv | hpr
    · subst hpv
      refine ⟨h2, Nat.le_of_eq h1.symm, ?_⟩
      simp only [List.map_cons, List.sum_cons]
      omega
    · have := ih (off + v.2.length) h3 p hpr
      simp only [List.map_cons, List.sum_cons]
      refine ⟨this.1, by omega, by omega⟩

lemma writesFrom_pairwise (ws : List (Nat × List Nat)) :
    ∀ off, writesFrom off ws →
      ws.Pairwise (fun a b : Nat × List Nat => a.1 < b.1) := by
  induction ws with
  | nil => intro off _; exact List.Pairwise.nil
  | cons v rest ih =>
    intro off h
    obtain ⟨h1, h2, h3⟩ := h
    refine List.Pairwise.cons ?_ (ih (off + v.2.length) h3)
    intro b hb
    have hs := writesFrom_span rest (off + v.2.length) h3 b hb
    have hlen : 0 < v.2.length := List.length_pos.mpr h2
    omega

/-- C6 counterexample: a 206 response for the one-byte segment `[0, 0]` whose
body delivers two bytes makes `downloadChunk` perform a single write of two
bytes at offset 0, whose last byte (offset 1) lies outside the segment's
range `[Start, End] = [0, 0]` — the code never clamps the body to the
requested range. -/
theorem downloadChunk_write_overrun_counterexample :
    (downloadChunk ⟨0, 0, 0⟩ (some ⟨206, ⟨[[7, 7]], [], .eofMark⟩⟩)
        (fun _ => false) 0).writes = [(0, [7, 7])] ∧
    ¬ ((0 : Nat) + ([7, 7] : List Nat).length - 1 ≤ ChunkInfo.End ⟨0, 0, 0⟩) := by
  constructor
  · rfl
  · decide

/-- C6 (amended): for every segment fetch, each delivered non-empty buffer
triggers exactly one positioned write, the writes occur back-to-back at
strictly increasing offsets starting at the segment's start, and — provided
the response body delivers at most `End - Start + 1` bytes, i.e. the server
honours the requested range — every written byte falls within
`[Start, End]`. -/
theorem downloadChunk_write_confinement (chunk : ChunkInfo) (r : ChunkResp)
    (wfail : Nat → Bool) (dur : Nat)
    (hbound : (r.body.reads.map List.length).sum + r.body.lastData.length ≤
      chunk.End + 1 - chunk.Start)
    (hse : chunk.Start ≤ chunk.End) :
    writesFrom chunk.Start (downloadChunk chunk (some r) wfail dur).writes ∧
    ((downloadChunk chunk (some r) wfail dur).writes).Pairwise
      (fun a b : Nat × List Nat => a.1 < b.1) ∧
    ∀ p ∈ (downloadChunk chunk (some r) wfail dur).writes,
      p.2 ≠ [] ∧ chunk.Start ≤ p.1 ∧ p.1 + p.2.length - 1 ≤ chunk.End := by
  by_cases hst : r.status ≠ 206
  · unfold downloadChunk
    dsimp only
    rw [if_pos hst]
    exact ⟨trivial, List.Pairwise.nil, fun p hp => absurd hp (List.not_mem_nil p)⟩
  · unfold downloadChunk
    dsimp only
    rw [if_neg hst]
    dsimp only
    have hlay := chunkReadLoop_layout wfail r.body.reads r.body.lastData
      r.body.lastEnd 0 chunk.Start
    refine ⟨hlay.1, writesFrom_pairwise _ chunk.Start hlay.1, ?_⟩
    intro p hp
    have hs := writesFrom_span _ chunk.Start hlay.1 p hp
    have hb := hlay.2
    have hlen : 0 < p.2.length := List.length_pos.mpr hs.1
    exact ⟨hs.1, hs.2.1, by omega⟩

/-- Witness for `downloadChunk_write_confinement`: segment `[0, 4]` whose
body delivers `[1,2]`, `[3]` then EOF — two writes at offsets 0 and 2, all
bytes within `[0, 4]`. -/
theorem downloadChunk_write_confinement_witness :
    ((([[1, 2], [3]] : List (List Nat)).map List.length).sum +
        ([] : List Nat).length ≤ 4 + 1 - 0) ∧
    (0 ≤ 4) ∧
    (writesFrom 0 (downloadChunk ⟨0, 4, 0⟩
        (some ⟨206, ⟨[[1, 2], [3]], [], .eofMark⟩⟩) (fun _ => false) 0).writes ∧
      ((downloadChunk ⟨0, 4, 0⟩
        (some ⟨206, ⟨[[1, 2], [3]], [], .eofMark⟩⟩) (fun _ => false) 0).writes).Pairwise
        (fun a b : Nat × List Nat => a.1 < b.1) ∧
      ∀ p ∈ (downloadChunk ⟨0, 4, 0⟩
          (some ⟨206, ⟨[[1, 2], [3]], [], .eofMark⟩⟩) (fun _ => false) 0).writes,
        p.2 ≠ [] ∧ 0 ≤ p.1 ∧ p.1 + p.2.length - 1 ≤ 4) :=
  ⟨by decide, by decide,
    downloadChunk_write_confinement ⟨0, 4, 0⟩
      ⟨206, ⟨[[1, 2], [3]], [], .eofMark⟩⟩ (fun _ => false) 0
      (by decide) (by decide)⟩

/-- The sequential read/write loop of `downloadSingleConnection`: every
non-empty buffer is appended to the file with `file.Write` and its length
added to the shared byte counter. -/
def singleReadLoop (wfail : Nat → Bool) :
    List (List Nat) → List Nat → ReadEnd → Nat →
    List (List Nat) × Nat × Option DlErr
  | [], lastData, lastEnd, w =>
    if lastData = [] then
      match lastEnd with
      | .eofMark => ([], 0, none)
      | .readFail => ([], 0, some .bodyFail)
    else
      if wfail w then ([], 0, some .writeFail)
      else
        match lastEnd with
        | .eofMark => ([lastData], lastData.length, none)
        | .readFail => ([lastData], lastData.length, some .bodyFail)
  | d :: rest, lastData, lastEnd, w =>
    if d = [] then singleReadLoop wfail rest lastData lastEnd w
    else
      if wfail w then ([], 0, some .writeFail)
      else
        let r := singleReadLoop wfail rest lastData lastEnd (w + 1)
        (d :: r.1, d.length + r.2.1, r.2.2)

/-- The whole-body GET response seen by the fallback path. -/
structure SingleResp where
  status : Nat
  body : BodyStream
deriving DecidableEq

/-- Result of `downloadSingleConnection`: buffers appended to the file in
order, the final `Stats.BytesDownloaded` counter, the byte total printed by
the completion report (`none` if the fetch failed before reporting), and the
returned error. -/
structure SingleResult where
  written : List (List Nat)
  counter : Nat
  reportedBytes : Option Nat
  err : Option DlErr
deriving DecidableEq

/-- Embedding of `downloadSingleConnection` (main.go): create the file, issue
the whole-body GET (`none` models a transport error), require status 200,
stream the body appending each buffer and counting its length, and on success
report the final counter value as the file size. -/
def downloadSingleConnection (createOk : Bool) (resp : Option SingleResp)
    (wfail : Nat → Bool) : SingleResult :=
  if createOk = false then ⟨[], 0, none, some .createFail⟩
  else
    match resp with
    | none => ⟨[], 0, none, some .reqFail⟩
    | some r =>
      if r.status ≠ 200 then ⟨[], 0, none, some (.badStatus r.status)⟩
      else
        let t := singleReadLoop wfail r.body.reads r.body.lastData
          r.body.lastEnd 0
        match t.2.2 with
        | some e => ⟨t.1, t.2.1, none, some e⟩
        | none => ⟨t.1, t.2.1, some t.2.1, none⟩

lemma singleReadLoop_success (wfail : Nat → Bool) :
    ∀ (reads : List (List Nat)) (lastData : List Nat) (lastEnd : ReadEnd)
      (w : Nat),
      (singleReadLoop wfail reads lastData lastEnd w).2.2 = none →
      (singleReadLoop wfail reads lastData lastEnd w).1 =
        (reads ++ [lastData]).filter (fun d => !d.isEmpty) ∧
      (singleReadLoop wfail reads lastData lastEnd w).2.1 =
        ((reads ++ [lastData]).map List.length).sum := by
  intro reads
  induction reads with
  | nil =>
    intro lastData lastEnd w h
    by_cases hld : lastData = []
    · subst hld
      cases lastEnd with
      | eofMark => simp [singleReadLoop]
      | readFail => simp [singleReadLoop] at h
    · obtain ⟨x, xs, rfl⟩ := List.exists_cons_of_ne_nil hld
      by_cases hw : wfail w = true
      · simp [singleReadLoop, hw] at h
      · cases lastEnd with
        | eofMark => simp [singleReadLoop, hw]
        | readFail => simp [singleReadLoop, hw] at h
  | cons d rest ih =>
    intro lastData lastEnd w h
    by_cases hd : d = []
    · subst hd
      simp only [singleReadLoop, if_pos rfl] at h ⊢
      have := ih lastData lastEnd w h
      simp [this.1, this.2]
    · by_cases hw : wfail w = true
      · simp [singleReadLoop, hd, hw] at h
      · simp only [singleReadLoop, if_neg hd, hw, Bool.false_eq_true,
          if_false] at h ⊢
        have := ih lastData lastEnd (w + 1) h
        obtain ⟨x, xs, rfl⟩ := List.exists_cons_of_ne_nil hd
        simp [this.1, this.2]

/-- C9: when the fallback single-stream fetch completes successfully, the
file holds exactly the non-empty buffers received, in order; the shared
counter equals the total number of bytes actually received from the body
(the advertised `Content-Length` is never consulted by the loop); and the
completion report states exactly that counter as the file size. -/
theorem downloadSingleConnection_accounting (r : SingleResp)
    (wfail : Nat → Bool)
    (h : (downloadSingleConnection true (some r) wfail).err = none) :
    (downloadSingleConnection true (some r) wfail).written =
      (r.body.reads ++ [r.body.lastData]).filter (fun d => !d.isEmpty) ∧
    (downloadSingleConnection true (some r) wfail).counter =
      ((r.body.reads ++ [r.body.lastData]).map List.length).sum ∧
    (downloadSingleConnection true (some r) wfail).reportedBytes =
      some ((downloadSingleConnection true (some r) wfail).counter) := by
  unfold downloadSingleConnection at h ⊢
  rw [if_neg (by simp)] at h ⊢
  dsimp only at h ⊢
  by_cases hst : r.status ≠ 200
  · rw [if_pos hst] at h
    exact absurd h (by simp)
  · rw [if_neg hst] at h ⊢
    rcases he : (singleReadLoop wfail r.body.reads r.body.lastData
        r.body.lastEnd 0).2.2 with _ | e
    · have hs := singleReadLoop_success wfail r.body.reads r.body.lastData
        r.body.lastEnd 0 he
      exact ⟨hs.1, hs.2, rfl⟩
    · rw [he] at h
      exact Option.noConfusion h

/-- Witness for `downloadSingleConnection_accounting`: a 200 response whose
body delivers `[1,2]`, `[]`, `[3]` then `[4]` with EOF — the file holds
`[1,2], [3], [4]`, the counter is 4 and the report says 4 bytes. -/
theorem downloadSingleConnection_accounting_witness :
    (downloadSingleConnection true
        (some ⟨200, ⟨[[1, 2], [], [3]], [4], .eofMark⟩⟩) (fun _ => false)).err
      = none ∧
    (downloadSingleConnection true
        (some ⟨200, ⟨[[1, 2], [], [3]], [4], .eofMark⟩⟩) (fun _ => false)).written
      = [[1, 2], [3], [4]] ∧
    (downloadSingleConnection true
        (some ⟨200, ⟨[[1, 2], [], [3]], [4], .eofMark⟩⟩) (fun _ => false)).counter
      = 4 ∧
    (downloadSingleConnection true
        (some ⟨200, ⟨[[1, 2], [], [3]], [4], .eofMark⟩⟩) (fun _ => false)).reportedBytes
      = some 4 := by
  have h := downloadSingleConnection_accounting
    ⟨200, ⟨[[1, 2], [], [3]], [4], .eofMark⟩⟩ (fun _ => false) (by decide)
  refine ⟨by decide, ?_, ?_, ?_⟩
  · rw [h.1]
    decide
  · rw [h.2.1]
    decide
  · rw [h.2.2]
    rw [h.2.1]
    decide

/-- Top-level failure kinds of `Download`. -/
inductive DownloadErr
  | probeFail (e : ProbeErr)
  | createFail
  | truncateFail
  | chunkFail (e : DlErr)
  | singleFail (e : DlErr)
deriving DecidableEq

/-- Externally visible activity of the range path of `Download`: the planned
chunk list, the chunks for which a range request was issued, and the
positioned writes performed. -/
structure DownloadTrace where
  planned : List ChunkInfo
  rangeRequests : List ChunkInfo
  posWrites : List (Nat × List Nat)
deriving DecidableEq

/-- A worker draining the chunk queue in order: each chunk costs one range
request, its writes are recorded, and the first chunk error ends the drain
(the sequential view of the pool used for the straight-line claims). -/
def drainChunks (resps : ChunkInfo → Option ChunkResp)
    (wfs : ChunkInfo → Nat → Bool) (durs : ChunkInfo → Nat) :
    List ChunkInfo → List ChunkInfo × List (Nat × List Nat) × Option DlErr
  | [] => ([], [], none)
  | c :: rest =>
    let r := downloadChunk c (resps c) (wfs c) (durs c)
    match r.result with
    | some e => ([c], r.writes, some e)
    | none =>
      let t := drainChunks resps wfs durs rest
      (c :: t.1, r.writes ++ t.2.1, t.2.2)

/-- Embedding of `Download` (main.go): probe the server; on no range support
take the fallback path; otherwise create the output file, pre-size it with
`file.Truncate` (modelled by `truncateOk`), only then plan the chunks
(1 MiB each) and fetch them.  The first component records what the range
path actually did. -/
def download (probe : Option ProbeResponse) (createOk truncateOk : Bool)
    (resps : ChunkInfo → Option ChunkResp) (wfs : ChunkInfo → Nat → Bool)
    (durs : ChunkInfo → Nat) (singleCreateOk : Bool)
    (singleResp : Option SingleResp) (singleWf : Nat → Bool) :
    DownloadTrace × Option DownloadErr :=
  match getFileSize probe with
  | (_, .error e) => (⟨[], [], []⟩, some (.probeFail e))
  | (fs, .ok supportsRanges) =>
    if supportsRanges = false then
      let r := downloadSingleConnection singleCreateOk singleResp singleWf
      (⟨[], [], []⟩, r.err.map .singleFail)
    else if createOk = false then (⟨[], [], []⟩, some .createFail)
    else if truncateOk = false then (⟨[], [], []⟩, some .truncateFail)
    else
      let chunks := makeChunks fs.toNat (1024 * 1024)
      let t := drainChunks resps wfs durs chunks
      (⟨chunks, t.1, t.2.1⟩, (t.2.2).map .chunkFail)

/-- C8: in the range path, a failing `file.Truncate` (pre-sizing) makes
`Download` return that error with no chunk planned, no range request issued
and no positioned write performed. -/
theorem download_presize_failure_atomic (probe : Option ProbeResponse)
    (fs : Int) (resps : ChunkInfo → Option ChunkResp)
    (wfs : ChunkInfo → Nat → Bool) (durs : ChunkInfo → Nat)
    (singleCreateOk : Bool) (singleResp : Option SingleResp)
    (singleWf : Nat → Bool)
    (hp : getFileSize probe = (fs, Except.ok true)) :
    download probe true false resps wfs durs singleCreateOk singleResp
        singleWf =
      (⟨[], [], []⟩, some DownloadErr.truncateFail) := by
  unfold download
  rw [hp]
  dsimp only
  rw [if_neg (by simp), if_neg (by simp), if_pos rfl]

/-- Witness for `download_presize_failure_atomic`: a probe reporting 200,
`Content-Length: 1024`, `Accept-Ranges: bytes` followed by a failing
truncate. -/
theorem download_presize_failure_atomic_witness :
    getFileSize (some ⟨200, "1024", "bytes"⟩) = (1024, Except.ok true) ∧
    download (some ⟨200, "1024", "bytes"⟩) true false (fun _ => none)
        (fun _ => fun _ => false) (fun _ => 0) true none (fun _ => false) =
      (⟨[], [], []⟩, some DownloadErr.truncateFail) :=
  ⟨by rfl,
    download_presize_failure_atomic (some ⟨200, "1024", "bytes"⟩) 1024
      (fun _ => none) (fun _ => fun _ => false) (fun _ => 0) true none
      (fun _ => false) (by rfl)⟩
